import Mathlib

/-!
Verification development for the chunked transcription engine of the
YoutubeAIHelper repository (`LocalYoutubeAIHelper-Python/transcriber.py`).

The definitions below are a shallow embedding of the `Transcriber` class.
Modelling conventions:
* Python `datetime.timedelta` values are exact counts of microseconds; they
  are modelled as integers (µs).  Chunk offsets (`start_time`,
  `chunk_length_ms`, `overlap_ms`) are integers in milliseconds, as in the
  source; the ffprobe duration (a float of milliseconds in the source) is
  idealized as an integer number of milliseconds.
* I/O boundaries are explicit parameters: the byte size of the audio file,
  the `ffprobe` duration result (`Option ℤ`, `none` = the probe failed), the
  Whisper API outcome of each chunk (`Option WhisperResponse`, `none` = the
  remote call raised after the adapter exhausted its retries), and the order
  in which `concurrent.futures.as_completed` yields the chunk futures
  (a list of indices into the chunk list).
* The `while` loop of `split_audio_file` is given an explicit fuel argument;
  a `none` result means the loop had not finished after `fuel` iterations
  (so `∀ fuel, ... = none` models non-termination).
* An uncaught exception is modelled as `none`: in particular the result
  collection of `transcribe_audio_files` runs
  `transcripts['raw_responses'].extend(chunk_result['response'])`, which
  raises `TypeError` when the chunk failed (`response` is `None`), killing
  the job before any transcript file is written (see `collect_loop`).
-/

/-- One subtitle unit, modelling the `srt.Subtitle` objects built by
`process_whisper_response`: 1-based index, start/end times in microseconds,
and the text content.  (`stop` models the Python attribute `end`.) -/
structure Subtitle where
  index : ℕ
  start : ℤ
  stop : ℤ
  content : String
deriving DecidableEq

/-- One timed unit of a Whisper API response (`segment.start`, `segment.end`,
`segment.text` — or `word.start`, `word.end`, `word.word`).  The times the
API reports are float seconds; the value `datetime.timedelta(seconds=·)`
makes of them is an exact count of microseconds, which is what this record
stores. -/
structure WhisperUnit where
  start : ℤ
  stop : ℤ
  text : String
deriving DecidableEq

/-- A Whisper API response restricted to the fields the engine reads:
the segment-level and word-level unit lists. -/
structure WhisperResponse where
  segments : List WhisperUnit
  words : List WhisperUnit
deriving DecidableEq

/-- A chunk descriptor, modelling the dict
`{'file_path': ..., 'start_time': start, 'is_temp': ...}` built by
`split_audio_file`, together with the `end` bound that the same loop
iteration passes to `split_audio_ffmpeg` (`stop_time`; `none` in the
no-split branch, where no end bound is ever computed).  Times in ms. -/
structure ChunkInfo where
  start_time : ℤ
  stop_time : Option ℤ
  is_temp : Bool
deriving DecidableEq

/-- Result of `transcribe_chunk`: the processed unit lists, the raw response
(`none` in the `except` branch), and whether the chunk's temporary file was
removed (the `os.remove` side effect, recorded as a flag). -/
structure ChunkResult where
  segments : List Subtitle
  words : List Subtitle
  response : Option WhisperResponse
  deleted : Bool
deriving DecidableEq

/-- The four files written by `save_transcripts`, by their contents. -/
structure TranscriptFiles where
  srt : String
  txt : String
  word_srt : String
  llmsrt : String
deriving DecidableEq

/-- The no-split size guard of `split_audio_file` is
`file_size <= 24.8 * 1024 * 1024`; this is that threshold, as a rational
number of bytes (`26004684.8`). -/
def chunk_size_limit : ℚ := 24.8 * 1024 * 1024

/-- The largest integer byte size passing the no-split guard: for an integer
`file_size`, `file_size <= 24.8 * 1024 * 1024` iff `file_size ≤ 26004684`
(see `le_chunk_size_limit_iff`). -/
def no_split_limit : ℤ := 26004684

/-- The constant `MIN_DURATION = datetime.timedelta(milliseconds=10)`, in microseconds. -/
def min_duration : ℤ := 10000

/-- Python's `str.strip()` (with no argument): remove leading and trailing
whitespace characters. -/
def py_strip (s : String) : String :=
  String.mk (((s.data.dropWhile Char.isWhitespace).reverse.dropWhile
    Char.isWhitespace).reverse)

/-- One loop body of the unit-processing loops of `process_whisper_response`:
shift by the chunk's start offset (µs), widen an empty-or-inverted range by
`MIN_DURATION`, assign index `i + 1`, and strip the text. -/
def shift_unit (start_delta : ℤ) (i : ℕ) (u : WhisperUnit) : Subtitle :=
  let s := u.start + start_delta
  let e := u.stop + start_delta
  { index := i + 1
    start := s
    stop := if s ≥ e then s + min_duration else e
    content := py_strip u.text }

/-- The `for i, unit in enumerate(...)` loops of `process_whisper_response`,
starting at enumeration index `i`. -/
def number_units (start_delta : ℤ) (i : ℕ) : List WhisperUnit → List Subtitle
  | [] => []
  | u :: rest => shift_unit start_delta i u :: number_units start_delta (i + 1) rest

/-- The segment/word lists produced by `process_whisper_response`. -/
structure TranscriptPair where
  segments : List Subtitle
  words : List Subtitle
deriving DecidableEq

/-- Model of `Transcriber.process_whisper_response`: shift all response units by the
chunk's absolute start time (`start_time_ms` milliseconds, i.e. a
`timedelta` of `start_time_ms * 1000` microseconds) and number them
from 1. -/
def process_whisper_response (resp : WhisperResponse) (start_time_ms : ℤ) : TranscriptPair :=
  { segments := number_units (start_time_ms * 1000) 0 resp.segments
    words := number_units (start_time_ms * 1000) 0 resp.words }

/-- Model of `Transcriber.transcribe_chunk`.  Here `outcome` is the result of the remote
`client.transcribe_audio` call: `none` means the call raised, taking the
`except` branch, which returns empty unit lists and performs no file
deletion (the `os.remove` sits after the API call inside the `try`); on
success the response is processed and the temporary file is removed iff
`is_temp`. -/
def transcribe_chunk (chunk : ChunkInfo) (outcome : Option WhisperResponse) : ChunkResult :=
  match outcome with
  | none => { segments := [], words := [], response := none, deleted := false }
  | some resp =>
      let r := process_whisper_response resp chunk.start_time
      { segments := r.segments
        words := r.words
        response := some resp
        deleted := chunk.is_temp }

/-- The `while start < duration_ms` loop of `Transcriber.split_audio_file`,
with explicit fuel.  Each iteration emits the chunk record appended by the
source loop (plus the `end` bound it passes to ffmpeg) and advances
`start` by `chunk_length_ms - overlap_ms`. -/
def split_loop (duration_ms chunk_length_ms overlap_ms : ℤ) :
    ℕ → ℤ → Option (List ChunkInfo)
  | 0, start => if start < duration_ms then none else some []
  | fuel + 1, start =>
      if start < duration_ms then
        (split_loop duration_ms chunk_length_ms overlap_ms fuel
            (start + (chunk_length_ms - overlap_ms))).map
          (fun rest =>
            { start_time := start
              stop_time := some (min (start + chunk_length_ms) duration_ms)
              is_temp := true } :: rest)
      else some []

/-- Model of `Transcriber.split_audio_file`.  Here `file_size` is `os.path.getsize`,
`duration_ms?` is the `get_audio_duration` result (`none` = ffprobe failed,
which the source maps to an empty chunk list).  The size guard
`file_size <= 24.8 * 1024 * 1024` is expressed by the equivalent integer
bound `no_split_limit` (see `le_chunk_size_limit_iff`). -/
def split_audio_file (fuel : ℕ) (file_size : ℤ) (duration_ms? : Option ℤ)
    (chunk_length_ms overlap_ms : ℤ) : Option (List ChunkInfo) :=
  if file_size ≤ no_split_limit then
    some [{ start_time := 0, stop_time := none, is_temp := false }]
  else
    match duration_ms? with
    | none => some []
    | some d => split_loop d chunk_length_ms overlap_ms fuel 0

/-- The per-chunk results, in submission order (`executor.submit` per chunk,
paired with each chunk's remote outcome). -/
def chunk_results (chunks : List ChunkInfo) (outcomes : List (Option WhisperResponse)) :
    List ChunkResult :=
  (chunks.zip outcomes).map (fun p => transcribe_chunk p.1 p.2)

/-- Result collection in `transcribe_audio_files`: futures are consumed in
`as_completed` order, modelled by the index list `order`. -/
def collect_results (chunks : List ChunkInfo) (outcomes : List (Option WhisperResponse))
    (order : List ℕ) : List ChunkResult :=
  order.filterMap (fun k => (chunk_results chunks outcomes)[k]?)

/-- The `transcripts['segments'].extend(...)` accumulation over all
collected chunk results: the segment lists the collection loop has
appended when it completes (it completes iff no collected chunk failed,
see `collect_loop`). -/
def collect_segments (chunks : List ChunkInfo) (outcomes : List (Option WhisperResponse))
    (order : List ℕ) : List Subtitle :=
  ((collect_results chunks outcomes order).map (fun r => r.segments)).flatten

/-- The `transcripts['words'].extend(...)` accumulation over all collected
chunk results (same proviso as `collect_segments`). -/
def collect_words (chunks : List ChunkInfo) (outcomes : List (Option WhisperResponse))
    (order : List ℕ) : List Subtitle :=
  ((collect_results chunks outcomes order).map (fun r => r.words)).flatten

/-- The body of the result-collection loop of `transcribe_audio_files`,
one iteration per completed future: it runs
`transcripts['segments'].extend(chunk_result['segments'])`,
`transcripts['words'].extend(chunk_result['words'])`, and then
`transcripts['raw_responses'].extend(chunk_result['response'])`
(transcriber.py:47-49).  For a failed chunk `chunk_result['response']` is
`None`, and `list.extend(None)` raises an uncaught `TypeError`, aborting
the whole job before `save_transcripts` runs: modelled as `none`.  For a
successful chunk the response object is iterable, so that `extend`
succeeds; what it appends only lands in `raw_responses`, which is never
written to disk (the `json.dump` is commented out), so it is not carried
further. -/
def collect_loop : List ChunkResult → Option (List Subtitle × List Subtitle)
  | [] => some ([], [])
  | r :: rest =>
      match r.response with
      | none => none
      | some _ =>
          (collect_loop rest).map (fun p => (r.segments ++ p.1, r.words ++ p.2))

/-- The sort relation of `segments.sort(key=lambda x: x.start)`. -/
def startLE (a b : Subtitle) : Prop := a.start ≤ b.start

instance : DecidableRel startLE :=
  fun a b => inferInstanceAs (Decidable (a.start ≤ b.start))

instance : IsTotal Subtitle startLE := ⟨fun a b => le_total a.start b.start⟩

instance : IsTrans Subtitle startLE := ⟨fun _ _ _ h1 h2 => le_trans h1 h2⟩

/-- The `for i, unit in enumerate(units, 1): unit.index = i` re-indexing
loop, starting at index `i`. -/
def reindex_from (i : ℕ) : List Subtitle → List Subtitle
  | [] => []
  | s :: rest => { s with index := i } :: reindex_from (i + 1) rest

/-- The merge step applied by `save_transcripts` to each granularity:
a stable sort by `start` followed by re-indexing from 1.  (Python's
`list.sort` is stable; insertion sort realizes the same function.) -/
def merge_units (l : List Subtitle) : List Subtitle :=
  reindex_from 1 (List.insertionSort startLE l)

/-- Zero-pad a natural number to two digits (`%02d`). -/
def pad2 (n : ℕ) : String :=
  if n < 10 then "0" ++ toString n else toString n

/-- Zero-pad a natural number to three digits (`%03d`). -/
def pad3 (n : ℕ) : String :=
  if n < 10 then "00" ++ toString n
  else if n < 100 then "0" ++ toString n
  else toString n

/-- The SRT timestamp `HH:MM:SS,mmm` of a nonnegative time in microseconds,
as produced by the `srt` library's serializer. -/
def srt_timestamp (t : ℤ) : String :=
  let totalMs : ℕ := t.toNat / 1000
  pad2 (totalMs / 3600000) ++ ":" ++ pad2 (totalMs / 60000 % 60) ++ ":" ++
    pad2 (totalMs / 1000 % 60) ++ "," ++ pad3 (totalMs % 1000)

/-- Model of `srt.compose` on an already sorted and re-indexed subtitle list: the
concatenation of the standard SRT blocks.  (`srt.compose([]) = ""`.) -/
def srt_compose (subs : List Subtitle) : String :=
  String.join (subs.map (fun s =>
    toString s.index ++ "\n" ++ srt_timestamp s.start ++ " --> " ++
      srt_timestamp s.stop ++ "\n" ++ s.content ++ "\n\n"))

/-- Python's `str(datetime.timedelta(...)).split('.')[0]` for a nonnegative
time `t` in microseconds: the `%d:%02d:%02d` core produced by
`timedelta.__str__` (hours NOT zero-padded), preceded by a
`"N day(s), "` prefix when `t` reaches 24 hours; the `split('.')[0]` drops
the fractional-second suffix, i.e. truncates to whole seconds. -/
def timedelta_str_trunc (t : ℤ) : String :=
  let total : ℕ := t.toNat / 1000000
  let days := total / 86400
  let secs := total % 86400
  let core := toString (secs / 3600) ++ ":" ++ pad2 (secs / 60 % 60) ++ ":" ++
    pad2 (secs % 60)
  if days = 0 then core
  else toString days ++ (if days = 1 then " day, " else " days, ") ++ core

/-- Model of `Transcriber.convert_to_llmsrt`: one line `[timestamp] content` per
subtitle, joined by newlines, the timestamp being
`str(subtitle.start).split('.')[0]`. -/
def convert_to_llmsrt (subs : List Subtitle) : String :=
  String.intercalate "\n" (subs.map (fun s =>
    "[" ++ timedelta_str_trunc s.start ++ "] " ++ s.content))

/-- Model of `Transcriber.save_transcripts`: sort and re-index both granularities,
then write the four sibling transcript files. -/
def save_transcripts (segments words : List Subtitle) : TranscriptFiles :=
  let segs := merge_units segments
  let ws := merge_units words
  { srt := srt_compose segs
    txt := String.intercalate " " (segs.map (fun s => s.content))
    word_srt := srt_compose ws
    llmsrt := convert_to_llmsrt segs }

/-- The per-file body of `Transcriber.transcribe_audio_files` after the
split: transcribe every chunk, run the result-collection loop in
completion order (which raises on the first failed chunk's `response`,
see `collect_loop`), and, only if it completes, save the combined
transcripts.  A `none` result models the job dying on the uncaught
`TypeError`: `save_transcripts` is never reached and no transcript file
is written or modified. -/
def transcribe_audio_file (chunks : List ChunkInfo) (outcomes : List (Option WhisperResponse))
    (order : List ℕ) : Option TranscriptFiles :=
  (collect_loop (collect_results chunks outcomes order)).map
    (fun p => save_transcripts p.1 p.2)

/-- One whole transcription job for one audio file: split, then transcribe,
collect and save.  `none` means no transcript files are produced: either
the split loop never terminates (fuel exhausted, see `split_loop`) or the
collection loop raised on a failed chunk (see `collect_loop`). -/
def transcribe_job (fuel : ℕ) (file_size : ℤ) (duration_ms? : Option ℤ)
    (chunk_length_ms overlap_ms : ℤ) (outcomes : List (Option WhisperResponse))
    (order : List ℕ) : Option TranscriptFiles :=
  (split_audio_file fuel file_size duration_ms? chunk_length_ms overlap_ms).bind
    (fun chunks => transcribe_audio_file chunks outcomes order)

/-- The loop of `Transcriber.split_srt_file_by_tokens`: `rest` are the
unprocessed subtitles, `cur` the current chunk, `t` the current token
count.  Emits finished chunks in order; the final nonempty chunk is
appended at the end. -/
def split_srt_go (tok : Subtitle → ℕ) (safe : ℤ) :
    List Subtitle → List Subtitle → ℤ → List (List Subtitle)
  | [], cur, _ => if cur = [] then [] else [cur]
  | s :: rest, cur, t =>
      if t + tok s > safe then
        cur :: split_srt_go tok safe rest [s] (tok s)
      else
        split_srt_go tok safe rest (cur ++ [s]) (t + tok s)

/-- Model of `Transcriber.split_srt_file_by_tokens` on an already parsed subtitle
list.  `tok` abstracts `len(tokenizer.encode(srt.compose([subtitle])))`;
the safe limit is `math.floor(max_tokens * token_safety_percentage)`. -/
def split_srt_file_by_tokens (tok : Subtitle → ℕ) (subs : List Subtitle)
    (max_tokens : ℕ) (token_safety_percentage : ℚ) : List (List Subtitle) :=
  split_srt_go tok ⌊(max_tokens : ℚ) * token_safety_percentage⌋ subs [] 0

/-- A default subtitle, used only as the fallback of `List.getD`. -/
def default_subtitle : Subtitle := { index := 0, start := 0, stop := 0, content := "" }

/-- The index-free payload of a subtitle unit (start, end, text); used to
compare unit sequences up to re-indexing. -/
def unit_data (s : Subtitle) : ℤ × ℤ × String := (s.start, s.stop, s.content)

/-- Verification helper: the chunk descriptor emitted by iteration `k` of the
`split_audio_file` loop when the loop entered iteration 0 at offset `base`. -/
def split_chunk_at (d C O base : ℤ) (k : ℕ) : ChunkInfo :=
  { start_time := base + k * (C - O)
    stop_time := some (min (base + k * (C - O) + C) d)
    is_temp := true }

/-- The integer size guard used by this embedding agrees with the source's
`file_size <= 24.8 * 1024 * 1024` on every integer byte size. -/
theorem le_chunk_size_limit_iff (n : ℤ) :
    (n : ℚ) ≤ chunk_size_limit ↔ n ≤ no_split_limit := by
  have h : chunk_size_limit = 130023424 / 5 := by norm_num [chunk_size_limit]
  rw [h, le_div_iff₀ (by norm_num : (0 : ℚ) < 5)]
  constructor
  · intro hle
    have : (n * 5 : ℤ) ≤ 130023424 := by exact_mod_cast hle
    unfold no_split_limit
    omega
  · intro hle
    have : (n * 5 : ℤ) ≤ 130023424 := by unfold no_split_limit at hle; omega
    exact_mod_cast this

/-- Every unit emitted by `shift_unit` has a strictly positive duration:
either the shifted range was already proper, or it got widened by
`MIN_DURATION`. -/
theorem shift_unit_start_lt_stop (d : ℤ) (i : ℕ) (u : WhisperUnit) :
    (shift_unit d i u).start < (shift_unit d i u).stop := by
  simp only [shift_unit, min_duration]
  split_ifs with h <;> omega

/-- Every unit in a `number_units` output has `start < stop`. -/
theorem number_units_start_lt_stop (d : ℤ) (i : ℕ) (l : List WhisperUnit) :
    ∀ s ∈ number_units d i l, s.start < s.stop := by
  induction l generalizing i with
  | nil => intro s hs; simp [number_units] at hs
  | cons u rest ih =>
      intro s hs
      simp only [number_units, List.mem_cons] at hs
      rcases hs with h | h
      · subst h; exact shift_unit_start_lt_stop d i u
      · exact ih (i + 1) s h

/-- Index-wise description of `number_units`. -/
theorem number_units_getElem? (d : ℤ) (i j : ℕ) (l : List WhisperUnit) :
    (number_units d i l)[j]? = l[j]?.map (shift_unit d (i + j)) := by
  induction l generalizing i j with
  | nil => simp [number_units]
  | cons u rest ih =>
      cases j with
      | zero => simp [number_units]
      | succ j =>
          simp only [number_units, List.getElem?_cons_succ, ih (i + 1) j]
          have h : i + 1 + j = i + (j + 1) := by omega
          rw [h]

/-- Re-indexing does not change the payload of any unit. -/
theorem reindex_from_map_data (i : ℕ) (l : List Subtitle) :
    (reindex_from i l).map unit_data = l.map unit_data := by
  induction l generalizing i with
  | nil => rfl
  | cons s rest ih => simp [reindex_from, unit_data, ih]

/-- Re-indexing from `i` writes the consecutive indices `i, i+1, ...`. -/
theorem reindex_from_map_index (i : ℕ) (l : List Subtitle) :
    (reindex_from i l).map (fun s => s.index) = List.range' i l.length := by
  induction l generalizing i with
  | nil => rfl
  | cons s rest ih =>
      show _ :: _ = List.range' i (rest.length + 1)
      rw [List.range'_succ]
      simp [reindex_from, ih]

/-- Re-indexing preserves length. -/
theorem reindex_from_length (i : ℕ) (l : List Subtitle) :
    (reindex_from i l).length = l.length := by
  have h := congrArg List.length (reindex_from_map_data i l)
  simpa using h

/-- The merge step permutes the payloads of its input and changes nothing
else: sorting is a permutation and re-indexing only rewrites indices. -/
theorem merge_units_perm_data (l : List Subtitle) :
    ((merge_units l).map unit_data).Perm (l.map unit_data) := by
  unfold merge_units
  rw [reindex_from_map_data]
  exact (List.perm_insertionSort startLE l).map unit_data

/-- The merge step preserves the number of units. -/
theorem merge_units_length (l : List Subtitle) :
    (merge_units l).length = l.length := by
  have h := (merge_units_perm_data l).length_eq
  simpa using h

/-- The start times of a merged sequence, in order, are the start times of
the sorted sequence. -/
theorem merge_units_map_start (l : List Subtitle) :
    (merge_units l).map (fun s => s.start) =
      (List.insertionSort startLE l).map (fun s => s.start) := by
  have h1 : ∀ m : List Subtitle,
      m.map (fun s => s.start) = (m.map unit_data).map (fun p => p.1) := by
    intro m; rw [List.map_map]; rfl
  rw [h1, h1, merge_units, reindex_from_map_data]

/-- The start times of a merged sequence are pairwise nondecreasing. -/
theorem merge_units_sorted_start (l : List Subtitle) :
    ((merge_units l).map (fun s => s.start)).Pairwise (· ≤ ·) := by
  rw [merge_units_map_start]
  exact List.pairwise_map.mpr (List.sorted_insertionSort startLE l)

/-- Reading every element of a list through `getElem?` along `range` gives
back the list. -/
theorem filterMap_getElem?_range {α : Type} (l : List α) :
    (List.range l.length).filterMap (fun k => l[k]?) = l := by
  induction l with
  | nil => rfl
  | cons a t ih =>
      rw [List.length_cons, List.range_succ_eq_map, List.filterMap_cons]
      have h0 : (a :: t)[0]? = some a := List.getElem?_cons_zero
      rw [h0, List.filterMap_map]
      have h1 : ((fun k => (a :: t)[k]?) ∘ Nat.succ) = (fun k => t[k]?) := by
        funext k
        simp
      rw [h1, ih]

/-- Collecting along any completion order that is a permutation of the
submission indices yields a permutation of the per-chunk results. -/
theorem collect_results_perm (chunks : List ChunkInfo)
    (outcomes : List (Option WhisperResponse)) (order : List ℕ)
    (horder : order.Perm (List.range (chunk_results chunks outcomes).length)) :
    (collect_results chunks outcomes order).Perm (chunk_results chunks outcomes) := by
  unfold collect_results
  have h1 : (order.filterMap (fun k => (chunk_results chunks outcomes)[k]?)).Perm
      ((List.range (chunk_results chunks outcomes).length).filterMap
        (fun k => (chunk_results chunks outcomes)[k]?)) :=
    horder.filterMap _
  rw [filterMap_getElem?_range] at h1
  exact h1

/-- With no chunks there are no results, whatever the completion order. -/
theorem collect_results_nil_chunks (outcomes : List (Option WhisperResponse))
    (order : List ℕ) : collect_results [] outcomes order = [] := by
  induction order with
  | nil => rfl
  | cons k ks ih =>
      unfold collect_results at ih ⊢
      simp only [chunk_results] at ih ⊢
      simp only [List.zip_nil_left, List.map_nil, List.getElem?_nil] at ih ⊢
      simp [ih]

/-- The chunks emitted by `split_srt_go`, concatenated, are the current
chunk followed by the unprocessed subtitles. -/
theorem split_srt_go_flatten (tok : Subtitle → ℕ) (safe : ℤ) (rest : List Subtitle) :
    ∀ (cur : List Subtitle) (t : ℤ),
      (split_srt_go tok safe rest cur t).flatten = cur ++ rest := by
  induction rest with
  | nil =>
      intro cur t
      by_cases h : cur = [] <;> simp [split_srt_go, h]
  | cons s rs ih =>
      intro cur t
      by_cases h : t + tok s > safe
      · simp [split_srt_go, h, ih]
      · simp [split_srt_go, h, ih]

/-- Claim C2, counterexample.  Two adjacent chunks `[0s,100s]` and
`[90s,180s]` (overlap window `[90s,100s]`) both transcribe a unit `"same"`
at global time `[92s,93s]`, fully inside the overlap window.  The claim
says the merged output contains exactly one such unit; the code performs
no deduplication, so the merged output contains two, and the published
plain-text transcript is `"same same"`. -/
theorem C2_counterexample :
    (merge_units (collect_segments
        [⟨0, some 100000, true⟩, ⟨90000, some 180000, true⟩]
        [some ⟨[⟨92000000, 93000000, "same"⟩], []⟩,
          some ⟨[⟨2000000, 3000000, "same"⟩], []⟩]
        [0, 1])).countP (fun s => s.content == "same") = 2 ∧
    split_audio_file 2 30000000 (some 180000) 100000 10000 =
      some [⟨0, some 100000, true⟩, ⟨90000, some 180000, true⟩] ∧
    (transcribe_audio_file
        [⟨0, some 100000, true⟩, ⟨90000, some 180000, true⟩]
        [some ⟨[⟨92000000, 93000000, "same"⟩], []⟩,
          some ⟨[⟨2000000, 3000000, "same"⟩], []⟩]
        [0, 1]).map (fun f => f.txt) = some "same same" :=
  ⟨by decide, by decide, by decide⟩

/-- Claim C2, amended.  The merge step of `save_transcripts` performs no
deduplication at all: up to re-indexing, the merged sequence is exactly a
permutation of all collected input units, so duplicated overlap-window
units are both kept — and, as the claim's final clause states, no unit
(inside or outside an overlap window) is ever deleted. -/
theorem C2_amended (units : List Subtitle) :
    ((merge_units units).map unit_data).Perm (units.map unit_data) ∧
    (merge_units units).length = units.length :=
  ⟨merge_units_perm_data units, merge_units_length units⟩

/-- Claim C6, counterexample.  A chunk with `is_temp = true` whose remote
transcription raises: the claim says its temporary file is still deleted
exactly once, but the `os.remove` sits after the API call inside the
`try`, so the `except` path performs no deletion at all. -/
theorem C6_counterexample :
    (⟨0, none, true⟩ : ChunkInfo).is_temp = true ∧
    (transcribe_chunk ⟨0, none, true⟩ none).deleted = false :=
  ⟨rfl, rfl⟩

/-- Claim C6, amended.  `transcribe_chunk` deletes the chunk's file iff the
chunk is temporary AND the transcription attempt succeeded; on a failed
attempt the temporary file is leaked, and a non-temporary file is never
deleted. -/
theorem C6_amended (chunk : ChunkInfo) (outcome : Option WhisperResponse) :
    (transcribe_chunk chunk outcome).deleted = (chunk.is_temp && outcome.isSome) := by
  cases outcome <;> simp [transcribe_chunk]

/-- Claim C7, confirmed.  After the merge step (applied by
`save_transcripts` to both the word-level and the segment-level sequence),
consecutive units have nondecreasing start times, the indices are exactly
`1..N` in order with no gaps or repeats (`List.range' 1 N`), and `N` is
the number of input units. -/
theorem C7_confirmed (units : List Subtitle) :
    (∀ i : ℕ, i + 1 < (merge_units units).length →
      ((merge_units units).getD i default_subtitle).start ≤
        ((merge_units units).getD (i + 1) default_subtitle).start) ∧
    (merge_units units).map (fun s => s.index) =
      List.range' 1 (merge_units units).length ∧
    (merge_units units).length = units.length := by
  refine ⟨?_, ?_, merge_units_length units⟩
  · intro i h
    have hp := List.pairwise_iff_getElem.mp (merge_units_sorted_start units)
    have hi : i < ((merge_units units).map (fun s => s.start)).length := by
      rw [List.length_map]; omega
    have hi1 : i + 1 < ((merge_units units).map (fun s => s.start)).length := by
      rw [List.length_map]; omega
    have hle := hp i (i + 1) hi hi1 (Nat.lt_succ_self i)
    simp only [List.getElem_map] at hle
    rw [List.getD_eq_getElem _ _ (by omega : i < (merge_units units).length),
      List.getD_eq_getElem _ _ h]
    exact hle
  · unfold merge_units
    rw [reindex_from_map_index, reindex_from_length]

/-- Witness for C7: on a concrete two-unit input the merged sequence is
sorted at position 0. -/
theorem C7_confirmed_witness :
    ((merge_units [⟨7, 3, 4, "b"⟩, ⟨9, 1, 2, "a"⟩]).getD 0 default_subtitle).start ≤
      ((merge_units [⟨7, 3, 4, "b"⟩, ⟨9, 1, 2, "a"⟩]).getD 1 default_subtitle).start :=
  (C7_confirmed [⟨7, 3, 4, "b"⟩, ⟨9, 1, 2, "a"⟩]).1 0 (by decide)

/-- Claim C8, confirmed.  Every unit emitted by `process_whisper_response`
satisfies `start < stop`; in particular a response unit whose reported
start equals its reported end is widened to end exactly
`MIN_DURATION = 10 ms` (10000 µs) after its start. -/
theorem C8_confirmed (resp : WhisperResponse) (start_time_ms : ℤ) :
    (∀ s ∈ (process_whisper_response resp start_time_ms).segments, s.start < s.stop) ∧
    (∀ s ∈ (process_whisper_response resp start_time_ms).words, s.start < s.stop) ∧
    (∀ (i : ℕ) (u : WhisperUnit), resp.segments[i]? = some u → u.start = u.stop →
      (process_whisper_response resp start_time_ms).segments[i]? =
        some { index := i + 1
               start := u.start + start_time_ms * 1000
               stop := u.start + start_time_ms * 1000 + min_duration
               content := py_strip u.text }) := by
  refine ⟨number_units_start_lt_stop _ 0 _, number_units_start_lt_stop _ 0 _, ?_⟩
  intro i u hu hse
  unfold process_whisper_response
  dsimp only
  rw [number_units_getElem?, hu]
  have hsh : shift_unit (start_time_ms * 1000) (0 + i) u =
      { index := i + 1
        start := u.start + start_time_ms * 1000
        stop := u.start + start_time_ms * 1000 + min_duration
        content := py_strip u.text } := by
    simp [shift_unit, hse]
  rw [Option.map_some', hsh]

/-- Witness for C8: a concrete degenerate response unit (`start = stop`)
at chunk offset 2000 ms is emitted widened by 10 ms. -/
theorem C8_confirmed_witness :
    (process_whisper_response ⟨[⟨5000000, 5000000, " hi "⟩], []⟩ 2000).segments[0]? =
      some { index := 0 + 1
             start := (5000000 : ℤ) + 2000 * 1000
             stop := (5000000 : ℤ) + 2000 * 1000 + min_duration
             content := py_strip " hi " } :=
  (C8_confirmed ⟨[⟨5000000, 5000000, " hi "⟩], []⟩ 2000).2.2 0
    ⟨5000000, 5000000, " hi "⟩ (by decide) (by decide)

/-- Claim C9, confirmed.  When the file is over the no-split threshold and
the duration probe fails, `split_audio_file` returns the empty chunk list
(rather than raising), and the job then writes all four transcript files
with empty contents (zero units). -/
theorem C9_confirmed (fuel : ℕ) (file_size chunk_length_ms overlap_ms : ℤ)
    (outcomes : List (Option WhisperResponse)) (order : List ℕ)
    (hsize : no_split_limit < file_size) :
    split_audio_file fuel file_size none chunk_length_ms overlap_ms = some [] ∧
    transcribe_job fuel file_size none chunk_length_ms overlap_ms outcomes order =
      some { srt := "", txt := "", word_srt := "", llmsrt := "" } := by
  have hsplit : split_audio_file fuel file_size none chunk_length_ms overlap_ms =
      some [] := by
    unfold split_audio_file
    rw [if_neg (by omega)]
  refine ⟨hsplit, ?_⟩
  unfold transcribe_job
  rw [hsplit]
  show transcribe_audio_file [] outcomes order = _
  unfold transcribe_audio_file
  rw [collect_results_nil_chunks]
  rfl

/-- Witness for C9: a 30 MB file with a failed duration probe yields empty
transcript files. -/
theorem C9_confirmed_witness :
    split_audio_file 0 30000000 none 100000 10000 = some [] ∧
    transcribe_job 0 30000000 none 100000 10000 [] [] =
      some { srt := "", txt := "", word_srt := "", llmsrt := "" } :=
  C9_confirmed 0 30000000 100000 10000 [] [] (by decide)

/-- Claim C10, confirmed.  For every parsed subtitle list and every token
limit, concatenating the chunks produced by `split_srt_file_by_tokens`, in
order, gives back exactly the input list: no subtitle is dropped,
duplicated or reordered. -/
theorem C10_confirmed (tok : Subtitle → ℕ) (subs : List Subtitle)
    (max_tokens : ℕ) (token_safety_percentage : ℚ) (_hpos : 0 < max_tokens) :
    (split_srt_file_by_tokens tok subs max_tokens token_safety_percentage).flatten =
      subs := by
  unfold split_srt_file_by_tokens
  simpa using split_srt_go_flatten tok _ subs [] 0

/-- Witness for C10: a concrete two-subtitle split at limit 4096
concatenates back to the input. -/
theorem C10_confirmed_witness :
    (0 : ℕ) < 4096 ∧
    (split_srt_file_by_tokens (fun _ => 1)
        [⟨1, 0, 1000000, "a"⟩, ⟨2, 1000000, 2000000, "b"⟩] 4096 (3 / 4)).flatten =
      [⟨1, 0, 1000000, "a"⟩, ⟨2, 1000000, 2000000, "b"⟩] :=
  ⟨by decide, C10_confirmed (fun _ => 1)
    [⟨1, 0, 1000000, "a"⟩, ⟨2, 1000000, 2000000, "b"⟩] 4096 (3 / 4) (by decide)⟩

/-- Helper for C1: if any collected chunk result carries no response (the
chunk's remote call raised), the collection loop aborts with the
`TypeError` from `raw_responses.extend(None)`. -/
theorem collect_loop_none_of_mem (l : List ChunkResult) (r : ChunkResult)
    (hmem : r ∈ l) (hr : r.response = none) : collect_loop l = none := by
  induction l with
  | nil => cases hmem
  | cons a t ih =>
      rcases List.mem_cons.mp hmem with h | h
      · subst h
        simp [collect_loop, hr]
      · cases ha : a.response with
        | none => simp [collect_loop, ha]
        | some v => simp [collect_loop, ha, ih h]

/-- Claim C1, confirmed.  If any chunk's transcription fails unrecoverably
(its remote outcome is `none`), the whole job fails before any output is
produced, in every completion order: the failed chunk's result carries
`response = None`, and the collection loop's
`transcripts['raw_responses'].extend(chunk_result['response'])` raises an
uncaught `TypeError`, so `save_transcripts` is never reached and no
transcript file (`transcript.srt`, `transcript.txt`, `transcript.word.srt`,
`transcript.llmsrt`) is written or modified — partially transcribed output
is never published.  (The abort is accidental — a `TypeError`, not a
designed propagation — but the claimed observable property holds.) -/
theorem C1_confirmed (fuel : ℕ) (file_size : ℤ) (duration_ms? : Option ℤ)
    (chunk_length_ms overlap_ms : ℤ) (chunks : List ChunkInfo)
    (outcomes : List (Option WhisperResponse)) (order : List ℕ) (k : ℕ)
    (hsplit : split_audio_file fuel file_size duration_ms? chunk_length_ms overlap_ms =
      some chunks)
    (horder : order.Perm (List.range (chunk_results chunks outcomes).length))
    (hk : k < chunks.length) (hko : outcomes[k]? = some none) :
    transcribe_audio_file chunks outcomes order = none ∧
    transcribe_job fuel file_size duration_ms? chunk_length_ms overlap_ms
      outcomes order = none := by
  have hklen : k < outcomes.length := by
    by_contra hcon
    push_neg at hcon
    rw [List.getElem?_eq_none hcon] at hko
    cases hko
  have hko' : outcomes[k] = none := by
    rw [List.getElem?_eq_getElem hklen] at hko
    exact Option.some.inj hko
  have hkzip : k < (chunks.zip outcomes).length := by
    rw [List.length_zip]
    omega
  have hbadmem : transcribe_chunk (chunks[k]) none ∈ chunk_results chunks outcomes := by
    unfold chunk_results
    apply List.mem_map.mpr
    refine ⟨(chunks[k], none), ?_, rfl⟩
    have hz : (chunks.zip outcomes)[k] = (chunks[k], outcomes[k]) :=
      List.getElem_zip ..
    rw [hko'] at hz
    exact hz ▸ List.getElem_mem hkzip
  have hmem2 : transcribe_chunk (chunks[k]) none ∈
      collect_results chunks outcomes order :=
    ((collect_results_perm chunks outcomes order horder).mem_iff).mpr hbadmem
  have hloop := collect_loop_none_of_mem _ _ hmem2 rfl
  have hfail : transcribe_audio_file chunks outcomes order = none := by
    unfold transcribe_audio_file
    rw [hloop]
    rfl
  refine ⟨hfail, ?_⟩
  unfold transcribe_job
  rw [hsplit]
  exact hfail

/-- Witness for C1: the concrete two-chunk job whose second chunk fails
produces no transcript files (the job aborts). -/
theorem C1_confirmed_witness :
    transcribe_audio_file [⟨0, some 100000, true⟩, ⟨90000, some 180000, true⟩]
        [some ⟨[⟨0, 1000000, "Hello"⟩], [⟨0, 1000000, "Hello"⟩]⟩, none] [0, 1] = none ∧
    transcribe_job 2 30000000 (some 180000) 100000 10000
        [some ⟨[⟨0, 1000000, "Hello"⟩], [⟨0, 1000000, "Hello"⟩]⟩, none] [0, 1] = none :=
  C1_confirmed 2 30000000 (some 180000) 100000 10000
    [⟨0, some 100000, true⟩, ⟨90000, some 180000, true⟩]
    [some ⟨[⟨0, 1000000, "Hello"⟩], [⟨0, 1000000, "Hello"⟩]⟩, none] [0, 1] 1
    (by decide) (by decide) (by decide) (by decide)

/-- For times below 24 hours, the truncated `str(timedelta)` timestamp is
unpadded hours, two-digit minutes and two-digit seconds of the time
truncated to whole seconds. -/
theorem timedelta_str_trunc_small (t : ℤ) (hday : t < 86400000000) :
    timedelta_str_trunc t =
      toString (t.toNat / 1000000 / 3600) ++ ":" ++
        pad2 (t.toNat / 1000000 / 60 % 60) ++ ":" ++ pad2 (t.toNat / 1000000 % 60) := by
  have htot : t.toNat / 1000000 < 86400 :=
    (Nat.div_lt_iff_lt_mul (by norm_num)).mpr (by omega)
  have hdays : t.toNat / 1000000 / 86400 = 0 := Nat.div_eq_of_lt htot
  have hsecs : t.toNat / 1000000 % 86400 = t.toNat / 1000000 := Nat.mod_eq_of_lt htot
  simp only [timedelta_str_trunc]
  rw [hdays, hsecs]
  simp

/-- Claim C4, counterexample.  On the claim's own example (units at 0 s
"Hello" and 2 s "world"), `transcript.txt` is indeed "Hello world", but
Python's `str(timedelta)` does not zero-pad hours: `transcript.llmsrt` is
"[0:00:00] Hello\n[0:00:02] world", not the claimed
"[00:00:00] Hello\n[00:00:02] world". -/
theorem C4_counterexample :
    (save_transcripts [⟨1, 0, 2000000, "Hello"⟩, ⟨2, 2000000, 4000000, "world"⟩] []).txt =
      "Hello world" ∧
    (save_transcripts [⟨1, 0, 2000000, "Hello"⟩, ⟨2, 2000000, 4000000, "world"⟩] []).llmsrt =
      "[0:00:00] Hello\n[0:00:02] world" ∧
    (save_transcripts [⟨1, 0, 2000000, "Hello"⟩, ⟨2, 2000000, 4000000, "world"⟩] []).llmsrt ≠
      "[00:00:00] Hello\n[00:00:02] world" :=
  ⟨by decide, by decide, by decide⟩

/-- Claim C4, amended.  `save_transcripts` renders `transcript.txt` as the
space-joined concatenation of the merged segment units' text in order, and
`transcript.llmsrt` as one line `[H:MM:SS] text` per merged unit — hours
unpadded (`%d`), minutes and seconds two-digit, the timestamp being the
unit's start time truncated to whole seconds (for units under 24 hours;
larger times additionally get Python's `"N day(s), "` prefix). -/
theorem C4_amended (segments words : List Subtitle)
    (hday : ∀ u ∈ merge_units segments, u.start < 86400000000) :
    (save_transcripts segments words).txt =
      String.intercalate " " ((merge_units segments).map (fun s => s.content)) ∧
    (save_transcripts segments words).llmsrt =
      String.intercalate "\n" ((merge_units segments).map (fun s =>
        "[" ++ (toString (s.start.toNat / 1000000 / 3600) ++ ":" ++
          pad2 (s.start.toNat / 1000000 / 60 % 60) ++ ":" ++
          pad2 (s.start.toNat / 1000000 % 60)) ++ "] " ++ s.content)) := by
  refine ⟨rfl, ?_⟩
  show convert_to_llmsrt (merge_units segments) = _
  unfold convert_to_llmsrt
  congr 1
  apply List.map_congr_left
  intro u hu
  rw [timedelta_str_trunc_small u.start (hday u hu)]

/-- Witness for C4 (amended): the two concrete example units. -/
theorem C4_amended_witness :
    (save_transcripts [⟨1, 0, 2000000, "Hello"⟩, ⟨2, 2000000, 4000000, "world"⟩] []).txt =
      String.intercalate " "
        ((merge_units [⟨1, 0, 2000000, "Hello"⟩, ⟨2, 2000000, 4000000, "world"⟩]).map
          (fun s => s.content)) ∧
    (save_transcripts [⟨1, 0, 2000000, "Hello"⟩, ⟨2, 2000000, 4000000, "world"⟩] []).llmsrt =
      String.intercalate "\n"
        ((merge_units [⟨1, 0, 2000000, "Hello"⟩, ⟨2, 2000000, 4000000, "world"⟩]).map
          (fun s =>
            "[" ++ (toString (s.start.toNat / 1000000 / 3600) ++ ":" ++
              pad2 (s.start.toNat / 1000000 / 60 % 60) ++ ":" ++
              pad2 (s.start.toNat / 1000000 % 60)) ++ "] " ++ s.content)) :=
  C4_amended [⟨1, 0, 2000000, "Hello"⟩, ⟨2, 2000000, 4000000, "world"⟩] [] (by decide)

/-- When `chunk_length_ms ≤ overlap_ms`, the split loop's offset never
advances past 0, so no amount of fuel makes the loop terminate. -/
theorem split_loop_none (d C O : ℤ) (hCO : C ≤ O) (hd : 0 < d) :
    ∀ (fuel : ℕ) (base : ℤ), base ≤ 0 → split_loop d C O fuel base = none := by
  intro fuel
  induction fuel with
  | zero =>
      intro base hb
      simp only [split_loop]
      rw [if_pos (by omega)]
  | succ f ih =>
      intro base hb
      simp only [split_loop]
      rw [if_pos (by omega), ih (base + (C - O)) (by omega)]
      rfl

/-- Claim C5: the spec requires a fail-fast configuration error when
`chunk_duration <= overlap_duration`; the code has no such guard and its
`while` loop never advances, i.e. it silently loops forever.  This theorem
exhibits the bug: for every amount of fuel the loop is still running, for
any over-threshold file size and positive duration. -/
theorem C5_bug (fuel : ℕ) (file_size d chunk_length_ms overlap_ms : ℤ)
    (hsize : no_split_limit < file_size) (hCO : chunk_length_ms ≤ overlap_ms)
    (hd : 0 < d) :
    split_audio_file fuel file_size (some d) chunk_length_ms overlap_ms = none := by
  unfold split_audio_file
  rw [if_neg (by omega)]
  exact split_loop_none d chunk_length_ms overlap_ms hCO hd fuel 0 le_rfl

/-- Witness for C5: with a 30 MB file, 20 s duration and
`chunk = overlap = 10 s`, 5 fuel steps (or any other number) do not finish
the loop. -/
theorem C5_bug_witness :
    split_audio_file 5 30000000 (some 20000) 10000 10000 = none :=
  C5_bug 5 30000000 20000 10000 10000 (by decide) (by decide) (by decide)

/-- Stepping a positive rational down by one steps its ceiling down by
one. -/
theorem nat_ceil_succ {y : ℚ} (hy : 0 < y) : ⌈y⌉₊ = ⌈y - 1⌉₊ + 1 := by
  rcases le_or_lt y 1 with h | h
  · have h0 : ⌈y⌉₊ = 1 := by
      rw [Nat.ceil_eq_iff one_ne_zero]
      norm_num
      exact ⟨hy, h⟩
    have h1 : ⌈y - 1⌉₊ = 0 := Nat.ceil_eq_zero.mpr (by linarith)
    omega
  · have h0 : (0 : ℚ) ≤ y - 1 := by linarith
    have hle : y - 1 ≤ (⌈y - 1⌉₊ : ℚ) := Nat.le_ceil _
    have hlt : (⌈y - 1⌉₊ : ℚ) < (y - 1) + 1 := Nat.ceil_lt_add_one h0
    have hne : ⌈y - 1⌉₊ + 1 ≠ 0 := by omega
    rw [Nat.ceil_eq_iff hne]
    constructor
    · have he : ⌈y - 1⌉₊ + 1 - 1 = ⌈y - 1⌉₊ := by omega
      rw [he]
      linarith
    · push_cast
      linarith

/-- Closed form of the split loop: with a positive step and enough fuel,
starting at `base` the loop emits one descriptor per natural
`k < ⌈(d - base) / (C - O)⌉`, following `split_chunk_at`. -/
theorem split_loop_closed_form (d C O : ℤ) (hs : 0 < C - O) :
    ∀ (fuel : ℕ) (base : ℤ),
      ⌈((d - base : ℤ) : ℚ) / ((C - O : ℤ) : ℚ)⌉₊ ≤ fuel →
      split_loop d C O fuel base =
        some ((List.range ⌈((d - base : ℤ) : ℚ) / ((C - O : ℤ) : ℚ)⌉₊).map
          (split_chunk_at d C O base)) := by
  have hs' : (0 : ℚ) < ((C - O : ℤ) : ℚ) := by exact_mod_cast hs
  intro fuel
  induction fuel with
  | zero =>
      intro base hf
      have h0 : ⌈((d - base : ℤ) : ℚ) / ((C - O : ℤ) : ℚ)⌉₊ = 0 := Nat.le_zero.mp hf
      have hdb : ((d - base : ℤ) : ℚ) / ((C - O : ℤ) : ℚ) ≤ 0 := Nat.ceil_eq_zero.mp h0
      have hd0 : ((d - base : ℤ) : ℚ) ≤ 0 := by
        by_contra hcon
        push_neg at hcon
        exact absurd (div_pos hcon hs') (by linarith)
      have hba : ¬ base < d := by
        have h1 : (d - base : ℤ) ≤ 0 := by exact_mod_cast hd0
        omega
      rw [h0]
      simp [split_loop, hba]
  | succ f ih =>
      intro base hf
      by_cases hb : base < d
      · have hpos : (0 : ℚ) < ((d - base : ℤ) : ℚ) / ((C - O : ℤ) : ℚ) := by
          apply div_pos _ hs'
          exact_mod_cast Int.sub_pos.mpr hb
        have harg : ((d - base : ℤ) : ℚ) / ((C - O : ℤ) : ℚ) - 1 =
            ((d - (base + (C - O)) : ℤ) : ℚ) / ((C - O : ℤ) : ℚ) := by
          rw [div_sub_one (ne_of_gt hs')]
          congr 1
          push_cast
          ring
        have hsucc := nat_ceil_succ hpos
        rw [harg] at hsucc
        have hf' : ⌈((d - (base + (C - O)) : ℤ) : ℚ) / ((C - O : ℤ) : ℚ)⌉₊ ≤ f := by
          omega
        have hrec := ih (base + (C - O)) hf'
        simp only [split_loop]
        rw [if_pos hb, hrec, Option.map_some']
        congr 1
        rw [hsucc, List.range_succ_eq_map, List.map_cons, List.map_map]
        congr 1
        · simp [split_chunk_at]
        · apply List.map_congr_left
          intro k hk
          simp only [Function.comp_apply]
          unfold split_chunk_at
          have hAB : base + (C - O) + (k : ℤ) * (C - O) = base + ((k : ℤ) + 1) * (C - O) := by
            ring
          push_cast
          rw [hAB]
      · have hba : d ≤ base := not_lt.mp hb
        have h0 : ⌈((d - base : ℤ) : ℚ) / ((C - O : ℤ) : ℚ)⌉₊ = 0 := by
          apply Nat.ceil_eq_zero.mpr
          apply div_nonpos_of_nonpos_of_nonneg
          · have h1 : (d - base : ℤ) ≤ 0 := by omega
            exact_mod_cast h1
          · linarith
        rw [h0]
        simp [split_loop, hb]

/-- Claim C3, counterexample.  With chunk length 100 ms, overlap 50 ms and
duration 130 ms (file over the size threshold), the loop emits THREE
descriptors (starts 0, 50, 100), but the claimed count
`ceil((D - O) / (C - O)) = ceil(80 / 50)` is 2. -/
theorem C3_counterexample :
    split_audio_file 3 30000000 (some 130) 100 50 =
      some [⟨0, some 100, true⟩, ⟨50, some 130, true⟩, ⟨100, some 130, true⟩] ∧
    ⌈((130 : ℚ) - 50) / ((100 : ℚ) - 50)⌉₊ = 2 := by
  constructor
  · decide
  · rw [Nat.ceil_eq_iff (by norm_num)]
    norm_num

/-- Claim C3, amended.  For an asset over the size threshold with
`O ≥ 0 < D` and `O < C`, and enough fuel, the splitter emits exactly
`ceil(D / (C - O))` descriptors (not `ceil((D - O) / (C - O))`); descriptor
`k` is `[k(C-O), min(k(C-O)+C, D))` and is temporary; a consecutive pair
whose earlier member is unclamped (`k(C-O)+C ≤ D`) overlaps by exactly `O`;
the last descriptor's end is clamped to `D`; and the descriptors cover
`[0, D)` with no gaps. -/
theorem C3_amended (file_size d C O : ℤ) (fuel : ℕ)
    (hsize : no_split_limit < file_size) (hO : 0 ≤ O) (hOC : O < C) (hd : 0 < d)
    (hfuel : ⌈(d : ℚ) / ((C : ℚ) - O)⌉₊ ≤ fuel) :
    ∃ chunks : List ChunkInfo,
      split_audio_file fuel file_size (some d) C O = some chunks ∧
      chunks.length = ⌈(d : ℚ) / ((C : ℚ) - O)⌉₊ ∧
      (∀ k : ℕ, k < chunks.length →
        chunks[k]? = some { start_time := (k : ℤ) * (C - O)
                            stop_time := some (min ((k : ℤ) * (C - O) + C) d)
                            is_temp := true }) ∧
      (∀ k : ℕ, k + 1 < chunks.length → (k : ℤ) * (C - O) + C ≤ d →
        ∃ c c' : ChunkInfo, chunks[k]? = some c ∧ chunks[k + 1]? = some c' ∧
          c.stop_time = some ((k : ℤ) * (C - O) + C) ∧
          (k : ℤ) * (C - O) + C - c'.start_time = O) ∧
      (∃ clast : ChunkInfo, chunks[chunks.length - 1]? = some clast ∧
        clast.stop_time = some d) ∧
      (∀ x : ℤ, 0 ≤ x → x < d →
        ∃ (k : ℕ) (c : ChunkInfo), chunks[k]? = some c ∧
          c.start_time ≤ x ∧ ∃ e : ℤ, c.stop_time = some e ∧ x < e) := by
  have hs : (0 : ℤ) < C - O := by omega
  have hs' : (0 : ℚ) < ((C - O : ℤ) : ℚ) := by exact_mod_cast hs
  have hcast : ((C - O : ℤ) : ℚ) = (C : ℚ) - O := by push_cast; ring
  have hsq : (0 : ℚ) < (C : ℚ) - O := by rw [← hcast]; exact hs'
  have hceil0 : ⌈((d - 0 : ℤ) : ℚ) / ((C - O : ℤ) : ℚ)⌉₊ =
      ⌈(d : ℚ) / ((C : ℚ) - O)⌉₊ := by
    rw [hcast]
    norm_num
  set n := ⌈(d : ℚ) / ((C : ℚ) - O)⌉₊ with hn
  have hloop := split_loop_closed_form d C O hs fuel 0 (by rw [hceil0]; exact hfuel)
  rw [hceil0] at hloop
  have hnpos : 0 < n := by
    rw [hn]
    exact Nat.ceil_pos.mpr (div_pos (by exact_mod_cast hd) hsq)
  have hitem : ∀ k : ℕ, k < n →
      ((List.range n).map (split_chunk_at d C O 0))[k]? =
        some { start_time := (k : ℤ) * (C - O)
               stop_time := some (min ((k : ℤ) * (C - O) + C) d)
               is_temp := true } := by
    intro k hk
    rw [List.getElem?_map, List.getElem?_range hk, Option.map_some']
    unfold split_chunk_at
    norm_num
  refine ⟨(List.range n).map (split_chunk_at d C O 0), ?_, by simp, ?_, ?_, ?_, ?_⟩
  · unfold split_audio_file
    rw [if_neg (by omega)]
    exact hloop
  · intro k hk
    exact hitem k (by simpa using hk)
  · intro k hk hle
    have hk1 : k + 1 < n := by simpa using hk
    have hk0 : k < n := by omega
    refine ⟨_, _, hitem k hk0, hitem (k + 1) hk1, ?_, ?_⟩
    · dsimp only
      rw [min_eq_left hle]
    · dsimp only
      push_cast
      ring
  · obtain ⟨m, hm⟩ : ∃ m, n = m + 1 := ⟨n - 1, by omega⟩
    have hlen : ((List.range n).map (split_chunk_at d C O 0)).length - 1 = m := by
      simp [hm]
    have hmn : m < n := by omega
    have hdle : (d : ℤ) ≤ (m : ℤ) * (C - O) + C := by
      have h2 := Nat.le_ceil ((d : ℚ) / ((C : ℚ) - O))
      rw [← hn] at h2
      have h1 : (d : ℚ) ≤ (n : ℚ) * ((C : ℚ) - O) := by
        calc (d : ℚ) = ((d : ℚ) / ((C : ℚ) - O)) * ((C : ℚ) - O) := by
              field_simp
          _ ≤ (n : ℚ) * ((C : ℚ) - O) := mul_le_mul_of_nonneg_right h2 (le_of_lt hsq)
      have h3 : (d : ℚ) ≤ ((m : ℚ) + 1) * ((C : ℚ) - O) := by
        rw [hm] at h1
        push_cast at h1
        linarith
      have h4 : (d : ℤ) ≤ ((m : ℤ) + 1) * (C - O) := by exact_mod_cast h3
      have h5 : ((m : ℤ) + 1) * (C - O) = (m : ℤ) * (C - O) + (C - O) := by ring
      rw [h5] at h4
      linarith
    refine ⟨{ start_time := (m : ℤ) * (C - O)
              stop_time := some (min ((m : ℤ) * (C - O) + C) d)
              is_temp := true }, ?_, ?_⟩
    · rw [hlen]
      exact hitem m hmn
    · dsimp only
      rw [min_eq_right hdle]
  · intro x hx0 hxd
    have hstpos : (0 : ℕ) < (C - O).toNat := by omega
    set k := x.toNat / (C - O).toNat with hk
    have hm1 : k * (C - O).toNat ≤ x.toNat := by
      have h := Nat.div_mul_le_self x.toNat (C - O).toNat
      rw [← hk] at h
      exact h
    have hm2 : x.toNat < k * (C - O).toNat + (C - O).toNat := by
      have hdm := Nat.div_add_mod x.toNat (C - O).toNat
      have hmod := Nat.mod_lt x.toNat hstpos
      rw [← hk] at hdm
      linarith
    have hstz : (((C - O).toNat : ℕ) : ℤ) = C - O := by omega
    have hxz : ((x.toNat : ℕ) : ℤ) = x := by omega
    have hb1 : (k : ℤ) * (C - O) ≤ x := by
      have h2 : ((k * (C - O).toNat : ℕ) : ℤ) ≤ ((x.toNat : ℕ) : ℤ) := by
        exact_mod_cast hm1
      push_cast at h2
      rw [hstz, hxz] at h2
      exact h2
    have hb2 : x < (k : ℤ) * (C - O) + (C - O) := by
      have h2 : ((x.toNat : ℕ) : ℤ) < ((k * (C - O).toNat + (C - O).toNat : ℕ) : ℤ) := by
        exact_mod_cast hm2
      push_cast at h2
      rw [hstz, hxz] at h2
      exact h2
    have hkd : (k : ℤ) * (C - O) < d := by linarith
    have hkn : k < n := by
      rw [hn, Nat.lt_ceil, lt_div_iff₀ hsq]
      exact_mod_cast hkd
    refine ⟨k, _, hitem k hkn, ?_, min ((k : ℤ) * (C - O) + C) d, rfl, ?_⟩
    · exact hb1
    · apply lt_min
      · have hCO2 : (C - O : ℤ) ≤ C := by omega
        linarith
      · exact hxd

/-- Witness for C3 (amended) at `file_size = 30 MB`, `D = 130`, `C = 100`,
`O = 50`, fuel 3: the full amended description holds there (in particular
the count is `ceil(130 / 50) = 3`). -/
theorem C3_amended_witness :
    ∃ chunks : List ChunkInfo,
      split_audio_file 3 30000000 (some 130) 100 50 = some chunks ∧
      chunks.length = ⌈(130 : ℚ) / ((100 : ℚ) - 50)⌉₊ ∧
      (∀ k : ℕ, k < chunks.length →
        chunks[k]? = some { start_time := (k : ℤ) * (100 - 50)
                            stop_time := some (min ((k : ℤ) * (100 - 50) + 100) 130)
                            is_temp := true }) ∧
      (∀ k : ℕ, k + 1 < chunks.length → (k : ℤ) * (100 - 50) + 100 ≤ 130 →
        ∃ c c' : ChunkInfo, chunks[k]? = some c ∧ chunks[k + 1]? = some c' ∧
          c.stop_time = some ((k : ℤ) * (100 - 50) + 100) ∧
          (k : ℤ) * (100 - 50) + 100 - c'.start_time = 50) ∧
      (∃ clast : ChunkInfo, chunks[chunks.length - 1]? = some clast ∧
        clast.stop_time = some 130) ∧
      (∀ x : ℤ, 0 ≤ x → x < 130 →
        ∃ (k : ℕ) (c : ChunkInfo), chunks[k]? = some c ∧
          c.start_time ≤ x ∧ ∃ e : ℤ, c.stop_time = some e ∧ x < e) :=
  C3_amended 30000000 130 100 50 3 (by decide) (by decide) (by decide) (by decide)
    (by rw [Nat.ceil_le]; norm_num)
